import Mathlib

/-
Verification of the email-finder backend (src/backend/server.js).

The JavaScript source is shallowly embedded in Lean:
  * JS strings are lists of characters (`Str`);
  * the network (HTTP fetch, DNS, the Places API) is an explicit
    environment `Env` of oracle functions, `none`/`.error` marking the
    failure cases that the JS code observes as exceptions or rejections;
  * the HTML parser (cheerio) is a black box per the spec, so a fetched
    page is modelled as its raw text plus the parsed list of anchors;
  * async/await code is pure state-free sequencing, and `Promise.all`
    over a `map` is the order-preserving `List.map`.
-/

set_option maxHeartbeats 1000000

namespace EmailFinder

open List (Sublist) in
/-- The sublist (subsequence) relation of `List.Sublist`, used to state
order-preservation results. -/
abbrev Subseq {α : Type} (l₁ l₂ : List α) : Prop := Sublist l₁ l₂

/-- JS strings are modelled as lists of characters. -/
abbrev Str : Type := List Char

/-- Coerce a Lean string literal into the list-of-characters model. -/
def str (s : String) : Str := s.toList

/-- ASCII lowercasing of one character: the behaviour of
`String.prototype.toLowerCase` on the ASCII range (non-ASCII characters
are left unchanged in this model). -/
def lowerChar (c : Char) : Char :=
  match c with
  | 'A' => 'a' | 'B' => 'b' | 'C' => 'c' | 'D' => 'd' | 'E' => 'e' | 'F' => 'f'
  | 'G' => 'g' | 'H' => 'h' | 'I' => 'i' | 'J' => 'j' | 'K' => 'k' | 'L' => 'l'
  | 'M' => 'm' | 'N' => 'n' | 'O' => 'o' | 'P' => 'p' | 'Q' => 'q' | 'R' => 'r'
  | 'S' => 's' | 'T' => 't' | 'U' => 'u' | 'V' => 'v' | 'W' => 'w' | 'X' => 'x'
  | 'Y' => 'y' | 'Z' => 'z'
  | c => c

/-- `s.toLowerCase()` over the model. -/
def lowerStr (s : Str) : Str := s.map lowerChar

/-- Whitespace characters removed by `String.prototype.trim` (ASCII part). -/
def isJsWs (c : Char) : Bool :=
  c == ' ' || c == '\t' || c == '\n' || c == '\r' || c == '\x0b' || c == '\x0c'

/-- `s.trim()`: strip whitespace from both ends. -/
def trimStr (s : Str) : Str :=
  ((s.dropWhile isJsWs).reverse.dropWhile isJsWs).reverse

/-- `pat` is a leading segment of the second argument
(`String.prototype.startsWith(pat)`). -/
def startsWithL : Str → Str → Bool
  | [], _ => true
  | _ :: _, [] => false
  | p :: ps, c :: cs => p == c && startsWithL ps cs

/-- `s.includes(pat)` / a regex test for a literal pattern: `pat` occurs as a
contiguous segment of `s`. -/
def containsSub (s pat : Str) : Bool :=
  s.tails.any (fun t => startsWithL pat t)

/-- Order-preserving deduplication with an accumulator of already-seen
elements: the behaviour of iterating a JS `Set` built from a list.  The
first occurrence of each element is kept. -/
def dedupFirstAux {α : Type} [DecidableEq α] (seen : List α) : List α → List α
  | [] => []
  | a :: l =>
    if a ∈ seen then dedupFirstAux seen l
    else a :: dedupFirstAux (a :: seen) l

/-- server.js `uniq`: `[...new Set((arr || []).filter(Boolean))]` on an array
of strings.  `filter(Boolean)` drops the empty string; the `Set` keeps first
occurrences in order. -/
def uniq (l : List Str) : List Str :=
  dedupFirstAux [] (l.filter (fun s => !s.isEmpty))

/-- server.js `uniq` applied to the `checks` array of `/api/run`, whose
elements are `string | null`: `filter(Boolean)` drops both `null` and the
empty string. -/
def uniqChecks (l : List (Option Str)) : List Str :=
  dedupFirstAux [] ((l.filterMap id).filter (fun s => !s.isEmpty))

/-- `s.split(sep)` of JS: split at every occurrence of `sep`;
`"".split(sep)` is `[""]`. -/
def splitParts (sep : Char) : Str → List Str
  | [] => [[]]
  | c :: cs =>
    if c == sep then [] :: splitParts sep cs
    else
      match splitParts sep cs with
      | [] => [[c]]
      | p :: ps => (c :: p) :: ps

/-! ### The email regular expression

server.js matches `/[a-zA-Z0-9._%+-]+@[a-zA-Z0-9.-]+\.[a-zA-Z]{2,}/g`
with `String.prototype.match`.  The matcher below implements the
backtracking semantics of that concrete pattern: at each start position
the local part `[a-zA-Z0-9._%+-]+` is forced to be the maximal run
(since `@` is not a local character, releasing characters can never
expose a `@`), and the domain part backtracks from the longest run of
`[a-zA-Z0-9.-]` down, looking for the rightmost `.` that is followed by
at least two letters. -/

/-- Character class `[a-zA-Z0-9._%+-]` (local part). -/
def isLocalChar (c : Char) : Bool :=
  c.isAlphanum || c == '.' || c == '_' || c == '%' || c == '+' || c == '-'

/-- Character class `[a-zA-Z0-9.-]` (domain part). -/
def isDomainChar (c : Char) : Bool :=
  c.isAlphanum || c == '.' || c == '-'

/-- One backtracking step of the domain part: after the `+` has consumed
`k` characters of `t`, `\.` must match `t[k]` and `[a-zA-Z]{2,}` must
greedily match at least two letters after it.  Returns the total number
of characters of `t` consumed on success. -/
def tryK (t : Str) (k : Nat) : Option Nat :=
  if t[k]? = some '.' then
    let mm := ((t.drop (k + 1)).takeWhile Char.isAlpha).length
    if 2 ≤ mm then some (k + 1 + mm) else none
  else none

/-- Backtracking search: try `k, k-1, …, 1` characters for
`[a-zA-Z0-9.-]+` (the regex engine releases characters one at a time,
and the `+` requires at least one). -/
def searchK (t : Str) : Nat → Option Nat
  | 0 => none
  | k + 1 =>
    match tryK t (k + 1) with
    | some r => some r
    | none => searchK t k

/-- Match `[a-zA-Z0-9.-]+\.[a-zA-Z]{2,}` at the start of `t`; returns the
number of characters consumed. -/
def tryDomain (t : Str) : Option Nat :=
  let n := (t.takeWhile isDomainChar).length
  if n = 0 then none else searchK t (n - 1)

/-- Attempt the whole email pattern at the start of `s`; on success,
returns the matched text and the remainder of `s`. -/
def tryMatchAt (s : Str) : Option (Str × Str) :=
  let l := s.takeWhile isLocalChar
  match s.dropWhile isLocalChar with
  | '@' :: t =>
    if l.isEmpty then none
    else
      match tryDomain t with
      | some dl => some (l ++ '@' :: t.take dl, t.drop dl)
      | none => none
  | _ => none

/-- The scan loop of `text.match(re)` with the `g` flag, structurally
recursive on a fuel argument: take non-overlapping matches left to right,
advancing one character on failure.  A successful match always consumes at
least two characters (`tryMatchAt_rest_lt` below), so with fuel
`s.length` the fuel never runs out (`scanAux_eq_of_le` below). -/
def scanAux : Nat → Str → List Str
  | 0, _ => []
  | _ + 1, [] => []
  | f + 1, c :: cs =>
    match tryMatchAt (c :: cs) with
    | some (m, r) => m :: scanAux f r
    | none => scanAux f cs

/-- `text.match(re)` with the `g` flag. -/
def scanMatches (s : Str) : List Str := scanAux s.length s

/-- server.js `extractEmailsFromText`: collect the regex matches,
lowercase each, and deduplicate with `uniq`. -/
def extractEmailsFromText (text : Str) : List Str :=
  uniq ((scanMatches text).map lowerStr)

/-- Membership in the language of the email pattern
`[a-zA-Z0-9._%+-]+@[a-zA-Z0-9.-]+\.[a-zA-Z]{2,}`: a non-empty local part
of ASCII letters/digits/`._%+-`, a `@`, a non-empty run of domain
characters, a dot, and a TLD of at least two ASCII letters. -/
def EmailShape (m : Str) : Prop :=
  ∃ l d t : Str,
    m = l ++ [ '@' ] ++ d ++ [ '.' ] ++ t ∧
    l ≠ [] ∧ (∀ c ∈ l, isLocalChar c = true) ∧
    d ≠ [] ∧ (∀ c ∈ d, isDomainChar c = true) ∧
    2 ≤ t.length ∧ (∀ c ∈ t, c.isAlpha = true)

/-! ### Pages, the network environment, and the website scraper -/

/-- One `<a>` element of a parsed page: its `href` attribute (if present)
and its text content.  The HTML parser (cheerio) is a black box per the
spec, so a page is modelled as parsed data, not as raw markup. -/
structure Anchor where
  href : Option Str
  text : Str
deriving DecidableEq

/-- A successfully fetched page: the raw body (`res.text()`) and the
anchors cheerio finds in it, in document order. -/
structure Page where
  html : Str
  anchors : List Anchor
deriving DecidableEq

/-- A raw result object of the Places API response (`data.places[i]`),
with every field optional as in the upstream JSON. -/
structure PlaceRaw where
  displayNameText : Option Str
  formattedAddress : Option Str
  rating : Option Str
  nationalPhoneNumber : Option Str
  websiteUri : Option Str
deriving DecidableEq

/-- The parsed JSON body of a Places API response (`data`), together with
its serialization `JSON.stringify(data)`. -/
structure PData where
  stringified : Str
  places : List PlaceRaw
deriving DecidableEq

/-- `res.json().catch(() => ({}))` falling back to the empty object. -/
def emptyPData : PData :=
  { stringified := str "\x7b\x7d", places := [] }

/-- An HTTP response of the Places API: its `ok` status and its body
(`none` when the body is not valid JSON). -/
structure UResp where
  ok : Bool
  json : Option PData
deriving DecidableEq

/-- The external world: every network call the server makes, as oracles.
`none` / a failing field models the exception or rejection the JS code
observes (network failure, timeout, DNS error, malformed URL). -/
structure Env where
  /-- `fetchWithTimeout(u).text()` plus the cheerio parse: `none` when the
  fetch (or reading the body) fails. -/
  fetchPage : Str → Option Page
  /-- `new URL(href, base).toString()`: `none` when the constructor throws. -/
  resolveUrl : Str → Str → Option Str
  /-- `dns.resolveMx(domain)`: the number of MX records, `none` on any
  DNS failure. -/
  resolveMx : Str → Option Nat
  /-- `process.env.GOOGLE_MAPS_API_KEY`. -/
  apiKey : Option Str
  /-- The Places API endpoint, keyed by `textQuery` and `maxResultCount`. -/
  placesApi : Str → Nat → UResp

/-- The email taken from one `mailto:` href:
`href.replace("mailto:", "").split("?")[0].trim().toLowerCase()`. -/
def mailtoEmail (href : Str) : Str :=
  lowerStr (trimStr ((href.drop 7).takeWhile (fun c => !(c == '?'))))

/-- server.js step 1 of the scraper: `$("a[href^='mailto:']")`, mapped to
emails, keeping only the truthy (non-empty) ones, in document order. -/
def mailtosOf (anchors : List Anchor) : List Str :=
  (((anchors.map (fun a => a.href.getD [])).filter
      (fun h => startsWithL (str "mailto:") h)).map mailtoEmail).filter
    (fun e => !e.isEmpty)

/-- The test `/contact|about|support/i.test(h)`. -/
def hasContactWord (h : Str) : Bool :=
  containsSub (lowerStr h) (str "contact") ||
  containsSub (lowerStr h) (str "about") ||
  containsSub (lowerStr h) (str "support")

/-- server.js step 3 of the scraper: `uniq($("a").map(href || "").get())`
filtered by the contact/about/support test.  Note the filter looks at the
href attribute only, never at the anchor text. -/
def contactCandidates (page : Page) : List Str :=
  (uniq (page.anchors.map (fun a => a.href.getD []))).filter hasContactWord

/-- Fetch one URL and extract the plain-text emails of its body; empty on
fetch failure. -/
def pageEmails (env : Env) (u : Str) : List Str :=
  match env.fetchPage u with
  | none => []
  | some p => extractEmailsFromText p.html

/-- The body of the secondary-page loop for one candidate href: resolve it
against the page URL and scrape the resolved page; the `try {} catch {}`
turns any failure into no contribution. -/
def perLink (env : Env) (base href : Str) : List Str :=
  match env.resolveUrl href base with
  | none => []
  | some u => pageEmails env u

/-- The `extra` array after the secondary-page loop ran over the first two
candidates. -/
def extraOf (env : Env) (base : Str) (page : Page) : List Str :=
  ((contactCandidates page).take 2).foldl (fun acc href => acc ++ perLink env base href) []

/-- server.js `scrapeEmailsFromWebsite`: mailto emails, plain emails and
secondary-page emails, deduplicated by `uniq` and capped at 50; any
failure of the main fetch gives `[]`. -/
def scrapeEmailsFromWebsite (env : Env) (websiteUrl : Str) : List Str :=
  match env.fetchPage websiteUrl with
  | none => []
  | some page =>
    (uniq (mailtosOf page.anchors ++ extractEmailsFromText page.html ++
      extraOf env websiteUrl page)).take 50

/-- The secondary URLs the scraper actually fetches: the first two
contact candidates whose URL resolution succeeds. -/
def visitedSecondary (env : Env) (base : Str) (page : Page) : List Str :=
  ((contactCandidates page).take 2).filterMap (fun href => env.resolveUrl href base)

/-- Modelled from the spec (for comparison with the code): the hyperlinks
"whose target text or href contains the substring contact, about or
support (case-insensitive)", as the spec's selection rule reads. -/
def specContactLinks (page : Page) : List Str :=
  (page.anchors.filter
    (fun a => hasContactWord a.text || hasContactWord (a.href.getD []))).map
    (fun a => a.href.getD [])

/-! ### The MX validator -/

/-- server.js `DISPOSABLE`: the static set of throwaway domains. -/
def DISPOSABLE : List Str :=
  [str "mailinator.com", str "10minutemail.com", str "guerrillamail.com",
   str "tempmail.com", str "yopmail.com", str "getnada.com",
   str "trashmail.com", str "mintemail.com", str "fakeinbox.com"]

/-- server.js `mxOk`: take `email.split("@")[1]`, lowercase it, reject a
missing or empty domain and disposable domains, then ask DNS for MX
records; any DNS failure is `false`. -/
def mxOk (env : Env) (email : Str) : Bool :=
  match (splitParts '@' email)[1]? with
  | none => false
  | some d =>
    let domain := lowerStr d
    if domain.isEmpty then false
    else if domain ∈ DISPOSABLE then false
    else
      match env.resolveMx domain with
      | none => false
      | some n => decide (0 < n)

/-! ### The Places client -/

/-- A normalized Business Record. -/
structure Place where
  name : Str
  address : Str
  rating : Str
  phone : Str
  website : Str
deriving DecidableEq

/-- Map one raw place to a Business Record, defaulting missing optional
fields to the empty value. -/
def normalizePlace (p : PlaceRaw) : Place :=
  { name := p.displayNameText.getD []
    address := p.formattedAddress.getD []
    rating := p.rating.getD []
    phone := p.nationalPhoneNumber.getD []
    website := p.websiteUri.getD [] }

/-- `Math.min(Math.max(Number(maxResults || 20), 1), 100)`. -/
def clampResults (maxResults : Nat) : Nat :=
  min (max (if maxResults = 0 then 20 else maxResults) 1) 100

/-- server.js `placesSearchText`: throw on a missing API key; call the
Places API; on a non-ok response throw `JSON.stringify(data)`; otherwise
normalize `data.places`. -/
def placesSearchText (env : Env) (query : Str) (maxResults : Nat) :
    Except Str (List Place) :=
  match env.apiKey with
  | none => .error (str "Missing GOOGLE_MAPS_API_KEY in Render env vars.")
  | some _ =>
    let resp := env.placesApi query (clampResults maxResults)
    let data := resp.json.getD emptyPData
    if resp.ok then .ok (data.places.map normalizePlace)
    else .error data.stringified

/-! ### The `/api/run` handler -/

/-- One Result Row of the response. -/
structure Row where
  name : Str
  phone : Str
  website : Str
  address : Str
  rating : Str
  emails : List Str
  verifiedEmails : List Str
deriving DecidableEq

/-- The request body of `POST /api/run`.  `items` is `none` when the field
is missing or is not an array (`Array.isArray(items)` fails). -/
structure RunReq where
  mode : Str
  items : Option (List Str)
  maxResults : Option Nat
  verify : Bool

/-- The verification step of one row: fire `mxOk` per email
(`Promise.all` keeps the order of the mapped list) and apply `uniq` to
the `string | null` results. -/
def verifyList (env : Env) (verify : Bool) (emails : List Str) : List Str :=
  if verify then
    uniqChecks (emails.map (fun e => if mxOk env e then some e else none))
  else []

/-- One row of "websites" mode. -/
def websiteRow (env : Env) (verify : Bool) (site : Str) : Row :=
  let website := trimStr site
  let emails := scrapeEmailsFromWebsite env website
  { name := [], phone := [], website := website, address := [], rating := []
    emails := emails, verifiedEmails := verifyList env verify emails }

/-- One row of "places" mode: scrape only when the place has a website. -/
def placeRow (env : Env) (verify : Bool) (p : Place) : Row :=
  let emails := if p.website.isEmpty then [] else scrapeEmailsFromWebsite env p.website
  { name := p.name, phone := p.phone, website := p.website
    address := p.address, rating := p.rating
    emails := emails, verifiedEmails := verifyList env verify emails }

/-- `maxResults || 20` at the call site of `placesSearchText`. -/
def maxResultsOrTwenty : Option Nat → Nat
  | none => 20
  | some 0 => 20
  | some n => n

/-- The "places" loop of the handler: a thrown `placesSearchText` error
aborts the whole batch (partial rows are discarded). -/
def placesLoop (env : Env) (verify : Bool) (maxResults : Option Nat) :
    List Str → Except Str (List Row)
  | [] => .ok []
  | q :: qs =>
    match placesSearchText env q (maxResultsOrTwenty maxResults) with
    | .error e => .error e
    | .ok places =>
      match placesLoop env verify maxResults qs with
      | .error e => .error e
      | .ok rest => .ok (places.map (placeRow env verify) ++ rest)

/-- server.js `app.post("/api/run")`: `400` when `items` is missing, not
an array, or empty; "websites" mode maps the first 100 items to rows;
otherwise "places" mode runs over the first 20 queries, a thrown error
becoming a `500` response with the error's message. -/
def runHandler (env : Env) (req : RunReq) : Except (Nat × Str) (List Row) :=
  let lines := req.items.getD []
  if lines.isEmpty then .error (400, str "No items provided.")
  else if req.mode = str "websites" then
    .ok ((lines.take 100).map (websiteRow env req.verify))
  else
    match placesLoop env req.verify req.maxResults (lines.take 20) with
    | .ok rows => .ok rows
    | .error msg => .error (500, msg)

/-- The three email sources of one scraped page, concatenated in the
order the code unions them. -/
def scrapeUnion (env : Env) (url : Str) (page : Page) : List Str :=
  mailtosOf page.anchors ++ extractEmailsFromText page.html ++ extraOf env url page

/-! ### Concrete fixtures used by the witness theorems -/

/-- An environment in which every network interaction fails. -/
def envFail : Env :=
  { fetchPage := fun _ => none
    resolveUrl := fun _ _ => none
    resolveMx := fun _ => none
    apiKey := none
    placesApi := fun _ _ => { ok := false, json := none } }

/-- A DNS oracle that reports MX records for every domain. -/
def envDnsYes : Env := { envFail with resolveMx := fun _ => some 3 }

/-- A page with one mailto anchor and one plain-text email. -/
def pageWit : Page :=
  { html := str "write to Us@Acme.COM"
    anchors := [{ href := some (str "mailto:Foo@Bar.COM"), text := str "mail us" }] }

/-- An environment serving `pageWit` at one URL. -/
def envWit : Env :=
  { envFail with
    fetchPage := fun u => if u = str "https://acme.test" then some pageWit else none }

/-- A "websites" request with 150 items. -/
def req150 : RunReq :=
  { mode := str "websites", items := some (List.replicate 150 (str "a"))
    maxResults := none, verify := false }

/-- A "websites" request with an empty `items` array. -/
def reqEmpty : RunReq :=
  { mode := str "websites", items := some [], maxResults := none, verify := false }

/-- A request whose `items` is missing or not an array. -/
def reqNoItems : RunReq :=
  { mode := str "places", items := none, maxResults := none, verify := false }

/-- A "places" request with one query. -/
def reqPlaces : RunReq :=
  { mode := str "places", items := some [str "cafes"], maxResults := none, verify := false }

/-- A "websites" request against `envWit`, with verification on. -/
def reqWit : RunReq :=
  { mode := str "websites", items := some [str "https://acme.test"]
    maxResults := none, verify := true }

/-- The row `reqWit` produces: both discovered emails fail the MX check. -/
def rowWit : Row :=
  { name := [], phone := [], website := str "https://acme.test", address := []
    rating := [], emails := [str "foo@bar.com", str "us@acme.com"]
    verifiedEmails := [] }

/-- An environment with an API key whose Places API rejects every call. -/
def envBadApi : Env :=
  { envFail with
    apiKey := some (str "k")
    placesApi := fun _ _ =>
      { ok := false, json := some { stringified := str "denied", places := [] } } }

/-- The 26 lowercase letters `a`–`z`. -/
def lowercaseLetters : List Char :=
  ['a', 'b', 'c', 'd', 'e', 'f', 'g', 'h', 'i', 'j', 'k', 'l', 'm',
   'n', 'o', 'p', 'q', 'r', 's', 't', 'u', 'v', 'w', 'x', 'y', 'z']

/-- Fifty pairwise distinct email addresses. -/
def fiftyEmails : List Str :=
  ((lowercaseLetters.map (fun c => [ 'a', c ]) ++
    lowercaseLetters.map (fun c => [ 'b', c ])).take 50).map
    (fun l => l ++ str "@q.zz")

/-- A page with 50 distinct mailto anchors followed by the
`mailto:Foo@Bar.COM` anchor of claim C7. -/
def pageCap : Page :=
  { html := []
    anchors :=
      fiftyEmails.map (fun e => { href := some (str "mailto:" ++ e), text := [] }) ++
      [{ href := some (str "mailto:Foo@Bar.COM"), text := [] }] }

/-- An environment serving `pageCap` at the URL `"u"`. -/
def envCap : Env :=
  { envFail with fetchPage := fun u => if u = str "u" then some pageCap else none }

/-- A page whose only anchor advertises the contact page in its text but
not in its href. -/
def pageTextOnly : Page :=
  { html := []
    anchors := [{ href := some (str "/x"), text := str "Contact us" }] }

/-- An environment whose URL resolution always succeeds (returns the href
unchanged) and whose fetches fail. -/
def envResolveId : Env :=
  { envFail with resolveUrl := fun href _ => some href }

/-- A page with one anchor whose href contains "about". -/
def pageAbout : Page :=
  { html := [], anchors := [{ href := some (str "/about"), text := str "x" }] }

/-! ### Helper lemmas: deduplication -/

theorem mem_of_mem_dedupFirstAux {α : Type} [DecidableEq α] {seen l : List α} {x : α}
    (h : x ∈ dedupFirstAux seen l) : x ∈ l := by
  induction l generalizing seen with
  | nil => simp [dedupFirstAux] at h
  | cons a l ih =>
    simp only [dedupFirstAux] at h
    split at h
    · exact List.mem_cons_of_mem _ (ih h)
    · rcases List.mem_cons.1 h with rfl | h2
      · exact List.mem_cons_self _ _
      · exact List.mem_cons_of_mem _ (ih h2)

theorem not_mem_seen_of_mem_dedupFirstAux {α : Type} [DecidableEq α]
    {seen l : List α} {x : α} (h : x ∈ dedupFirstAux seen l) : x ∉ seen := by
  induction l generalizing seen with
  | nil => simp [dedupFirstAux] at h
  | cons a l ih =>
    simp only [dedupFirstAux] at h
    split at h
    · exact ih h
    · rcases List.mem_cons.1 h with rfl | h2
      · assumption
      · intro hx
        exact ih h2 (List.mem_cons_of_mem _ hx)

theorem nodup_dedupFirstAux {α : Type} [DecidableEq α] (seen l : List α) :
    (dedupFirstAux seen l).Nodup := by
  induction l generalizing seen with
  | nil => simp [dedupFirstAux]
  | cons a l ih =>
    simp only [dedupFirstAux]
    split
    · exact ih seen
    · refine List.nodup_cons.2 ⟨fun hmem => ?_, ih (a :: seen)⟩
      exact not_mem_seen_of_mem_dedupFirstAux hmem (List.mem_cons_self _ _)

theorem sublist_dedupFirstAux {α : Type} [DecidableEq α] (seen l : List α) :
    Subseq (dedupFirstAux seen l) l := by
  induction l generalizing seen with
  | nil => simp [dedupFirstAux]
  | cons a l ih =>
    simp only [dedupFirstAux]
    split
    · exact (ih seen).cons _
    · exact (ih (a :: seen)).cons₂ _

theorem mem_dedupFirstAux_of_mem {α : Type} [DecidableEq α] {seen l : List α}
    {x : α} (hx : x ∈ l) (hs : x ∉ seen) : x ∈ dedupFirstAux seen l := by
  induction l generalizing seen with
  | nil => simp at hx
  | cons a l ih =>
    simp only [dedupFirstAux]
    rcases List.mem_cons.1 hx with rfl | h2
    · rw [if_neg hs]
      exact List.mem_cons_self _ _
    · split
      · exact ih h2 hs
      · by_cases hxa : x = a
        · subst hxa; exact List.mem_cons_self _ _
        · refine List.mem_cons_of_mem _ (ih h2 ?_)
          simp [hs, hxa]

theorem uniq_nodup (l : List Str) : (uniq l).Nodup :=
  nodup_dedupFirstAux _ _

theorem uniq_sublist (l : List Str) : Subseq (uniq l) l :=
  (sublist_dedupFirstAux _ _).trans (List.filter_sublist l)

theorem mem_uniq_of_mem {l : List Str} {x : Str} (hx : x ∈ l) (hne : x ≠ []) :
    x ∈ uniq l := by
  refine mem_dedupFirstAux_of_mem (List.mem_filter.2 ⟨hx, ?_⟩) (by simp)
  simpa [List.isEmpty_iff] using hne

theorem uniqChecks_sublist (l : List (Option Str)) : Subseq (uniqChecks l) (l.filterMap id) :=
  (sublist_dedupFirstAux _ _).trans (List.filter_sublist _)

theorem uniqChecks_nodup (l : List (Option Str)) : (uniqChecks l).Nodup :=
  nodup_dedupFirstAux _ _

/-! ### Helper lemmas: splitting and lowercasing -/

theorem splitParts_of_not_mem {sep : Char} {l : Str} (h : sep ∉ l) :
    splitParts sep l = [l] := by
  induction l with
  | nil => rfl
  | cons c cs ih =>
    have hc : ¬(c == sep) = true := by
      simp only [beq_iff_eq]
      rintro rfl
      exact h (List.mem_cons_self _ _)
    have hcs : sep ∉ cs := fun hx => h (List.mem_cons_of_mem _ hx)
    simp [splitParts, hc, ih hcs]

theorem lowerChar_cases (c : Char) :
    lowerChar c = c ∨ lowerChar c ∈ lowercaseLetters := by
  unfold lowerChar
  split
  case _ => exact Or.inr (by decide)
  case _ => exact Or.inr (by decide)
  case _ => exact Or.inr (by decide)
  case _ => exact Or.inr (by decide)
  case _ => exact Or.inr (by decide)
  case _ => exact Or.inr (by decide)
  case _ => exact Or.inr (by decide)
  case _ => exact Or.inr (by decide)
  case _ => exact Or.inr (by decide)
  case _ => exact Or.inr (by decide)
  case _ => exact Or.inr (by decide)
  case _ => exact Or.inr (by decide)
  case _ => exact Or.inr (by decide)
  case _ => exact Or.inr (by decide)
  case _ => exact Or.inr (by decide)
  case _ => exact Or.inr (by decide)
  case _ => exact Or.inr (by decide)
  case _ => exact Or.inr (by decide)
  case _ => exact Or.inr (by decide)
  case _ => exact Or.inr (by decide)
  case _ => exact Or.inr (by decide)
  case _ => exact Or.inr (by decide)
  case _ => exact Or.inr (by decide)
  case _ => exact Or.inr (by decide)
  case _ => exact Or.inr (by decide)
  case _ => exact Or.inr (by decide)
  case _ => exact Or.inl rfl

theorem lowerChar_idem (c : Char) : lowerChar (lowerChar c) = lowerChar c := by
  rcases lowerChar_cases c with h | h
  · rw [h, h]
  · simp only [lowercaseLetters, List.mem_cons, List.not_mem_nil, or_false] at h
    rcases h with h|h|h|h|h|h|h|h|h|h|h|h|h|h|h|h|h|h|h|h|h|h|h|h|h|h <;> rw [h] <;> decide

theorem lowerChar_local {c : Char} (h : isLocalChar c = true) :
    isLocalChar (lowerChar c) = true := by
  rcases lowerChar_cases c with h2 | h2
  · rwa [h2]
  · simp only [lowercaseLetters, List.mem_cons, List.not_mem_nil, or_false] at h2
    rcases h2 with h2|h2|h2|h2|h2|h2|h2|h2|h2|h2|h2|h2|h2|h2|h2|h2|h2|h2|h2|h2|h2|h2|h2|h2|h2|h2 <;> rw [h2] <;> decide

theorem lowerChar_domain {c : Char} (h : isDomainChar c = true) :
    isDomainChar (lowerChar c) = true := by
  rcases lowerChar_cases c with h2 | h2
  · rwa [h2]
  · simp only [lowercaseLetters, List.mem_cons, List.not_mem_nil, or_false] at h2
    rcases h2 with h2|h2|h2|h2|h2|h2|h2|h2|h2|h2|h2|h2|h2|h2|h2|h2|h2|h2|h2|h2|h2|h2|h2|h2|h2|h2 <;> rw [h2] <;> decide

theorem lowerChar_alpha {c : Char} (h : c.isAlpha = true) :
    (lowerChar c).isAlpha = true := by
  rcases lowerChar_cases c with h2 | h2
  · rwa [h2]
  · simp only [lowercaseLetters, List.mem_cons, List.not_mem_nil, or_false] at h2
    rcases h2 with h2|h2|h2|h2|h2|h2|h2|h2|h2|h2|h2|h2|h2|h2|h2|h2|h2|h2|h2|h2|h2|h2|h2|h2|h2|h2 <;> rw [h2] <;> decide

theorem lowerStr_idem (s : Str) : lowerStr (lowerStr s) = lowerStr s := by
  simp only [lowerStr, List.map_map]
  exact List.map_congr_left (fun c _ => lowerChar_idem c)

/-! ### Helper lemmas: the regex matcher -/

theorem take_takeWhile_eq {α : Type} (l : List α) (p : α → Bool) :
    l.take ((l.takeWhile p).length) = l.takeWhile p := by
  calc l.take ((l.takeWhile p).length)
      = (l.takeWhile p ++ l.dropWhile p).take ((l.takeWhile p).length) := by
        rw [List.takeWhile_append_dropWhile]
    _ = l.takeWhile p := List.take_left _ _

theorem mem_take_of_le_takeWhile {α : Type} {l : List α} {p : α → Bool} {j : Nat}
    (hj : j ≤ (l.takeWhile p).length) : ∀ x ∈ l.take j, p x = true := by
  intro x hx
  have heq : l.take j = (l.takeWhile p).take j := by
    conv_lhs => rw [← List.takeWhile_append_dropWhile (p := p) (l := l)]
    exact List.take_append_of_le_length hj
  rw [heq] at hx
  exact List.mem_takeWhile_imp ((List.take_sublist _ _).subset hx)

theorem searchK_shape {t : Str} {k dl : Nat} (h : searchK t k = some dl) :
    ∃ j, 1 ≤ j ∧ j ≤ k ∧ t[j]? = some '.' ∧
      2 ≤ ((t.drop (j + 1)).takeWhile Char.isAlpha).length ∧
      dl = j + 1 + ((t.drop (j + 1)).takeWhile Char.isAlpha).length := by
  induction k with
  | zero => simp [searchK] at h
  | succ k ih =>
    simp only [searchK] at h
    cases htry : tryK t (k + 1) with
    | some r =>
      rw [htry] at h
      simp only at h
      injection h with h
      subst h
      simp only [tryK] at htry
      split at htry
      next hdot =>
        split at htry
        next hmm =>
          injection htry with htry
          exact ⟨k + 1, by omega, le_refl _, hdot, hmm, htry.symm⟩
        next => exact absurd htry (by simp)
      next => exact absurd htry (by simp)
    | none =>
      rw [htry] at h
      simp only at h
      obtain ⟨j, h1, h2, h3, h4, h5⟩ := ih h
      exact ⟨j, h1, Nat.le_succ_of_le h2, h3, h4, h5⟩

theorem tryDomain_shape {t : Str} {dl : Nat} (h : tryDomain t = some dl) :
    ∃ j, 1 ≤ j ∧ j + 1 ≤ (t.takeWhile isDomainChar).length ∧ t[j]? = some '.' ∧
      2 ≤ ((t.drop (j + 1)).takeWhile Char.isAlpha).length ∧
      dl = j + 1 + ((t.drop (j + 1)).takeWhile Char.isAlpha).length := by
  simp only [tryDomain] at h
  split at h
  next => exact absurd h (by simp)
  next hn =>
    obtain ⟨j, h1, h2, h3, h4, h5⟩ := searchK_shape h
    exact ⟨j, h1, by omega, h3, h4, h5⟩

theorem take_split_at_dot {t : Str} {j : Nat} (hj : t[j]? = some '.') :
    t.take (j + 1 + ((t.drop (j + 1)).takeWhile Char.isAlpha).length) =
      t.take j ++ '.' :: (t.drop (j + 1)).takeWhile Char.isAlpha := by
  obtain ⟨hlt, hget⟩ := List.getElem?_eq_some_iff.1 hj
  have hdrop : t.drop j = '.' :: t.drop (j + 1) := by
    rw [List.drop_eq_getElem_cons hlt, hget]
  rw [show j + 1 + ((t.drop (j + 1)).takeWhile Char.isAlpha).length
        = j + (((t.drop (j + 1)).takeWhile Char.isAlpha).length + 1) by omega,
    List.take_add, hdrop, List.take_succ_cons, take_takeWhile_eq]

theorem tryMatchAt_rest_lt {s m r : Str} (h : tryMatchAt s = some (m, r)) :
    r.length < s.length := by
  simp only [tryMatchAt] at h
  split at h
  next t heq =>
    split at h
    next => exact absurd h (by simp)
    next hemp =>
      split at h
      next dl hdl =>
        injection h with h
        have hr : r = t.drop dl := (congrArg Prod.snd h).symm
        have ht : t.length + 1 ≤ s.length := by
          have hsuf := (List.dropWhile_suffix (l := s) isLocalChar).length_le
          rw [heq] at hsuf
          simpa using hsuf
        have hd : (t.drop dl).length ≤ t.length := by
          simp [List.length_drop]
        rw [hr]
        omega
      next => exact absurd h (by simp)
  next => exact absurd h (by simp)

theorem tryMatchAt_shape {s m r : Str} (h : tryMatchAt s = some (m, r)) :
    EmailShape m := by
  simp only [tryMatchAt] at h
  split at h
  next t heq =>
    split at h
    next => exact absurd h (by simp)
    next hemp =>
      split at h
      next dl hdl =>
        injection h with h
        have hm : m = s.takeWhile isLocalChar ++ '@' :: t.take dl :=
          (congrArg Prod.fst h).symm
        obtain ⟨j, h1, h2, h3, h4, h5⟩ := tryDomain_shape hdl
        obtain ⟨hlt, hget⟩ := List.getElem?_eq_some_iff.1 h3
        refine ⟨s.takeWhile isLocalChar, t.take j,
          (t.drop (j + 1)).takeWhile Char.isAlpha, ?_, ?_, ?_, ?_, ?_, ?_, ?_⟩
        · rw [hm, h5, take_split_at_dot h3]
          simp
        · intro hnil
          rw [hnil] at hemp
          simp at hemp
        · exact fun c hc => List.mem_takeWhile_imp hc
        · have : (t.take j).length = j := by
            rw [List.length_take]
            omega
          intro hnil
          rw [hnil] at this
          simp at this
          omega
        · exact mem_take_of_le_takeWhile (by omega)
        · exact h4
        · exact fun c hc => List.mem_takeWhile_imp hc
      next => exact absurd h (by simp)
  next => exact absurd h (by simp)

theorem scanAux_eq_of_le {f g : Nat} {s : Str} (hf : s.length ≤ f)
    (hg : s.length ≤ g) : scanAux f s = scanAux g s := by
  induction f generalizing g s with
  | zero =>
    have : s = [] := List.length_eq_zero.1 (Nat.le_zero.1 hf)
    subst this
    cases g <;> rfl
  | succ f ih =>
    cases s with
    | nil => cases g <;> rfl
    | cons c cs =>
      cases g with
      | zero => simp at hg
      | succ g =>
        cases htry : tryMatchAt (c :: cs) with
        | some mr =>
          obtain ⟨m, r⟩ := mr
          have hlt := tryMatchAt_rest_lt htry
          simp only [List.length_cons] at hf hg hlt
          simp only [scanAux, htry]
          rw [ih (g := g) (s := r) (by omega) (by omega)]
        | none =>
          simp only [List.length_cons] at hf hg
          simp only [scanAux, htry]
          exact ih (g := g) (s := cs) (by omega) (by omega)

theorem scanAux_shape {f : Nat} {s : Str} : ∀ m ∈ scanAux f s, EmailShape m := by
  induction f generalizing s with
  | zero => simp [scanAux]
  | succ f ih =>
    cases s with
    | nil => simp [scanAux]
    | cons c cs =>
      intro m hm
      simp only [scanAux] at hm
      cases htry : tryMatchAt (c :: cs) with
      | some mr =>
        obtain ⟨m₀, r⟩ := mr
        rw [htry] at hm
        simp only [List.mem_cons] at hm
        rcases hm with rfl | hm
        · exact tryMatchAt_shape htry
        · exact ih _ hm
      | none =>
        rw [htry] at hm
        exact ih _ hm

theorem scanMatches_shape {s : Str} : ∀ m ∈ scanMatches s, EmailShape m :=
  scanAux_shape

theorem EmailShape_lower {m : Str} (h : EmailShape m) : EmailShape (lowerStr m) := by
  obtain ⟨l, d, t, heq, hl, hlc, hd, hdc, ht, htc⟩ := h
  refine ⟨lowerStr l, lowerStr d, lowerStr t, ?_, ?_, ?_, ?_, ?_, ?_, ?_⟩
  · rw [heq]
    simp [lowerStr, show lowerChar '@' = '@' from rfl, show lowerChar '.' = '.' from rfl]
  · simpa [lowerStr] using hl
  · intro c hc
    obtain ⟨c₀, hc₀, rfl⟩ := List.mem_map.1 hc
    exact lowerChar_local (hlc c₀ hc₀)
  · simpa [lowerStr] using hd
  · intro c hc
    obtain ⟨c₀, hc₀, rfl⟩ := List.mem_map.1 hc
    exact lowerChar_domain (hdc c₀ hc₀)
  · simpa [lowerStr] using ht
  · intro c hc
    obtain ⟨c₀, hc₀, rfl⟩ := List.mem_map.1 hc
    exact lowerChar_alpha (htc c₀ hc₀)

theorem mem_extract {text m : Str} (h : m ∈ extractEmailsFromText text) :
    ∃ m₀ ∈ scanMatches text, m = lowerStr m₀ := by
  simp only [extractEmailsFromText, uniq] at h
  have h1 := mem_of_mem_dedupFirstAux h
  have h2 := (List.mem_filter.1 h1).1
  obtain ⟨m₀, hm₀, rfl⟩ := List.mem_map.1 h2
  exact ⟨m₀, hm₀, rfl⟩

/-! ### Claim theorems -/

/-! ### Helper lemmas: scraper and handler structure -/

theorem scrape_eq_of_fetch {env : Env} {url : Str} {page : Page}
    (h : env.fetchPage url = some page) :
    scrapeEmailsFromWebsite env url = (uniq (scrapeUnion env url page)).take 50 := by
  simp [scrapeEmailsFromWebsite, h, scrapeUnion]

theorem foldl_append_eq_flatMap {α β : Type} (f : α → List β) :
    ∀ (l : List α) (acc : List β),
      l.foldl (fun a x => a ++ f x) acc = acc ++ l.flatMap f := by
  intro l
  induction l with
  | nil => intro acc; simp
  | cons a l ih => intro acc; simp [ih]

theorem filterMap_ite_eq_filter {α : Type} (p : α → Bool) (l : List α) :
    (l.map (fun e => if p e then some e else none)).filterMap id = l.filter p := by
  induction l with
  | nil => rfl
  | cons a l ih => by_cases h : p a <;> simp [h, ih]

theorem verifyList_spec (env : Env) (v : Bool) (emails : List Str) :
    (v = false → verifyList env v emails = []) ∧
    Subseq (verifyList env v emails) emails ∧ (verifyList env v emails).Nodup := by
  refine ⟨fun h => by simp [verifyList, h], ?_, ?_⟩
  · cases v with
    | false => exact List.nil_sublist _
    | true =>
      show Subseq (uniqChecks _) emails
      refine (uniqChecks_sublist _).trans ?_
      rw [filterMap_ite_eq_filter]
      exact List.filter_sublist _
  · cases v with
    | false => exact List.nodup_nil
    | true => exact uniqChecks_nodup _

theorem placesLoop_rows {env : Env} {v : Bool} {mr : Option Nat} :
    ∀ {qs : List Str} {rows : List Row}, placesLoop env v mr qs = .ok rows →
      ∀ row ∈ rows, ∃ p : Place, row = placeRow env v p := by
  intro qs
  induction qs with
  | nil =>
    intro rows h row hrow
    simp only [placesLoop] at h
    injection h with h
    subst h
    simp at hrow
  | cons q qs ih =>
    intro rows h row hrow
    simp only [placesLoop] at h
    split at h
    next => exact absurd h (by simp)
    next places hp =>
      split at h
      next => exact absurd h (by simp)
      next rest hr =>
        injection h with h
        subst h
        rcases List.mem_append.1 hrow with hmem | hmem
        · obtain ⟨p, hp2, rfl⟩ := List.mem_map.1 hmem
          exact ⟨p, rfl⟩
        · exact ih hr row hmem

/-- Claim C1: on a successful fetch, the scraper's output has at most 50
entries, is duplicate-free, is a subsequence of the concatenation
mailto ++ plain ++ secondary (hence in first-seen order), contains only
emails from that union, and — whenever the deduplicated union fits the
50 cap — contains every non-empty email of the union. -/
theorem claim1_scrape_bounded_union (env : Env) (url : Str) (page : Page)
    (h : env.fetchPage url = some page) :
    (scrapeEmailsFromWebsite env url).length ≤ 50 ∧
    (scrapeEmailsFromWebsite env url).Nodup ∧
    Subseq (scrapeEmailsFromWebsite env url) (scrapeUnion env url page) ∧
    (∀ e ∈ scrapeEmailsFromWebsite env url, e ∈ scrapeUnion env url page) ∧
    ((uniq (scrapeUnion env url page)).length ≤ 50 →
      ∀ e ∈ scrapeUnion env url page, e ≠ [] →
        e ∈ scrapeEmailsFromWebsite env url) := by
  rw [scrape_eq_of_fetch h]
  refine ⟨?_, ?_, ?_, ?_, ?_⟩
  · rw [List.length_take]
    exact min_le_left _ _
  · exact List.Nodup.sublist (List.take_sublist _ _) (uniq_nodup _)
  · exact (List.take_sublist _ _).trans (uniq_sublist _)
  · intro e he
    exact ((List.take_sublist _ _).trans (uniq_sublist _)).subset he
  · intro hlen e he hne
    rw [List.take_of_length_le hlen]
    exact mem_uniq_of_mem he hne

/-- Witness for C1 on a concrete page with one mailto anchor and one
plain-text email: both appear in the output. -/
theorem claim1_scrape_bounded_union_witness :
    (scrapeEmailsFromWebsite envWit (str "https://acme.test")).length ≤ 50 ∧
    (scrapeEmailsFromWebsite envWit (str "https://acme.test")).Nodup ∧
    str "foo@bar.com" ∈ scrapeEmailsFromWebsite envWit (str "https://acme.test") ∧
    str "us@acme.com" ∈ scrapeEmailsFromWebsite envWit (str "https://acme.test") := by
  have h := claim1_scrape_bounded_union envWit (str "https://acme.test") pageWit
    (by decide)
  exact ⟨h.1, h.2.1,
    h.2.2.2.2 (by decide) _ (by decide) (by decide),
    h.2.2.2.2 (by decide) _ (by decide) (by decide)⟩

/-- Claim C3: `/api/run` answers 400 when `items` is missing, not an
array, or empty; in "websites" mode a 150-item list yields exactly the
rows of the first 100 items, one row per item. -/
theorem claim3_run_input_bounds (env : Env) (req : RunReq) :
    ((req.items = none ∨ req.items = some []) →
      runHandler env req = .error (400, str "No items provided.")) ∧
    (∀ l : List Str, req.items = some l → req.mode = str "websites" →
      l.length = 150 →
      runHandler env req = .ok ((l.take 100).map (websiteRow env req.verify)) ∧
      ((l.take 100).map (websiteRow env req.verify)).length = 100) := by
  constructor
  · rintro (h | h) <;> simp [runHandler, h]
  · intro l hl hm hlen
    have hne : l ≠ [] := by
      intro h
      subst h
      simp at hlen
    constructor
    · simp [runHandler, hl, hm, hne]
    · rw [List.length_map, List.length_take, hlen]
      decide

/-- Witness for C3: a missing-items request and an empty-items request
get 400, and a 150-item "websites" request yields exactly 100 rows. -/
theorem claim3_run_input_bounds_witness :
    runHandler envFail reqNoItems = .error (400, str "No items provided.") ∧
    runHandler envFail reqEmpty = .error (400, str "No items provided.") ∧
    runHandler envFail req150 =
      .ok (((List.replicate 150 (str "a")).take 100).map (websiteRow envFail false)) ∧
    (((List.replicate 150 (str "a")).take 100).map (websiteRow envFail false)).length
      = 100 := by
  have h1 := (claim3_run_input_bounds envFail reqNoItems).1 (Or.inl rfl)
  have h2 := (claim3_run_input_bounds envFail reqEmpty).1 (Or.inr rfl)
  have h3 := (claim3_run_input_bounds envFail req150).2
    (List.replicate 150 (str "a")) rfl rfl (by simp)
  exact ⟨h1, h2, h3.1, h3.2⟩

/-- Claim C4: a failing main fetch makes the scraper return the empty
list instead of raising, and the secondary-page contributions are an
independent concatenation per link in which a failing link (bad URL or
failing fetch) contributes nothing and leaves the other links intact. -/
theorem claim4_failures_swallowed (env : Env) (url : Str) :
    (env.fetchPage url = none → scrapeEmailsFromWebsite env url = []) ∧
    (∀ page : Page,
      extraOf env url page = ((contactCandidates page).take 2).flatMap (perLink env url)) ∧
    (∀ href, env.resolveUrl href url = none → perLink env url href = []) ∧
    (∀ href u, env.resolveUrl href url = some u → env.fetchPage u = none →
      perLink env url href = []) := by
  refine ⟨?_, ?_, ?_, ?_⟩
  · intro h
    simp [scrapeEmailsFromWebsite, h]
  · intro page
    simp [extraOf, foldl_append_eq_flatMap]
  · intro href h
    simp [perLink, h]
  · intro href u h1 h2
    simp [perLink, h1, pageEmails, h2]

/-- Witness for C4: the failing environment scrapes to `[]`, and a
candidate link that fails to resolve contributes nothing. -/
theorem claim4_failures_swallowed_witness :
    scrapeEmailsFromWebsite envFail (str "https://acme.test") = [] ∧
    extraOf envWit (str "https://acme.test") pageWit =
      ((contactCandidates pageWit).take 2).flatMap
        (perLink envWit (str "https://acme.test")) ∧
    perLink envWit (str "https://acme.test") (str "/contact") = [] :=
  ⟨(claim4_failures_swallowed envFail (str "https://acme.test")).1 rfl,
   (claim4_failures_swallowed envWit (str "https://acme.test")).2.1 pageWit,
   (claim4_failures_swallowed envWit (str "https://acme.test")).2.2.1
     (str "/contact") rfl⟩

/-- Claim C10: for every row of a successful `/api/run` response, a falsy
`verify` gives an empty `verifiedEmails`, and `verifiedEmails` is always
a duplicate-free subsequence of the row's `emails` (`Promise.all`
preserves the order of the mapped list). -/
theorem claim10_verified_subset (env : Env) (req : RunReq) (rows : List Row)
    (h : runHandler env req = .ok rows) :
    ∀ row ∈ rows,
      (req.verify = false → row.verifiedEmails = []) ∧
      Subseq row.verifiedEmails row.emails ∧ row.verifiedEmails.Nodup := by
  intro row hrow
  suffices hs : row.verifiedEmails = verifyList env req.verify row.emails by
    obtain ⟨h1, h2, h3⟩ := verifyList_spec env req.verify row.emails
    exact ⟨fun hv => by rw [hs]; exact h1 hv, hs ▸ h2, hs ▸ h3⟩
  simp only [runHandler] at h
  split at h
  next => exact absurd h (by simp)
  next =>
    split at h
    next hmode =>
      injection h with h
      subst h
      obtain ⟨site, hsite, rfl⟩ := List.mem_map.1 hrow
      rfl
    next hmode =>
      split at h
      next rows2 hp =>
        injection h with h
        subst h
        obtain ⟨p, rfl⟩ := placesLoop_rows hp row hrow
        rfl
      next => exact absurd h (by simp)

/-- Witness for C10 at a concrete verified request whose MX checks all
fail: the verified list is the empty subsequence. -/
theorem claim10_verified_subset_witness :
    Subseq rowWit.verifiedEmails rowWit.emails ∧ rowWit.verifiedEmails.Nodup ∧
    rowWit.verifiedEmails = [] := by
  have h := claim10_verified_subset envWit reqWit [rowWit] rfl rowWit
    (List.mem_singleton.2 rfl)
  exact ⟨h.2.1, h.2.2, by decide⟩

/-- Claim C2: for every input text the email extractor returns (totally,
by construction) a list in which every element is in the language of the
email pattern, every element is fixed by lowercasing, and no element
occurs twice. -/
theorem claim2_extract_wellformed (text : Str) :
    (∀ m ∈ extractEmailsFromText text, EmailShape m) ∧
    (∀ m ∈ extractEmailsFromText text, lowerStr m = m) ∧
    (extractEmailsFromText text).Nodup := by
  refine ⟨?_, ?_, uniq_nodup _⟩
  · intro m hm
    obtain ⟨m₀, h₀, rfl⟩ := mem_extract hm
    exact EmailShape_lower (scanMatches_shape m₀ h₀)
  · intro m hm
    obtain ⟨m₀, h₀, rfl⟩ := mem_extract hm
    exact lowerStr_idem m₀

/-- Witness for C2 at the text `"Contact: John@Ex.COM now"`, whose
extraction is `["john@ex.com"]`. -/
theorem claim2_extract_wellformed_witness :
    EmailShape (str "john@ex.com") ∧
    lowerStr (str "john@ex.com") = str "john@ex.com" ∧
    (extractEmailsFromText (str "Contact: John@Ex.COM now")).Nodup :=
  ⟨(claim2_extract_wellformed (str "Contact: John@Ex.COM now")).1 _ (by decide),
   (claim2_extract_wellformed (str "Contact: John@Ex.COM now")).2.1 _ (by decide),
   (claim2_extract_wellformed (str "Contact: John@Ex.COM now")).2.2⟩

/-- Claim C5: for every email whose domain part (the text between the
first and second `@`, lowercased) is in the static disposable set, `mxOk`
is false for every environment — in particular for every DNS oracle, so
no DNS answer can change the outcome. -/
theorem claim5_disposable_short_circuit (env : Env) (email d : Str)
    (hd : (splitParts '@' email)[1]? = some d)
    (hmem : lowerStr d ∈ DISPOSABLE) :
    mxOk env email = false := by
  simp only [mxOk, hd]
  split
  · rfl
  · simp [hmem]

/-- Witness for C5: `x@MailInator.com` is rejected even by an environment
whose DNS oracle reports MX records for every domain. -/
theorem claim5_disposable_short_circuit_witness :
    mxOk envDnsYes (str "x@MailInator.com") = false :=
  claim5_disposable_short_circuit envDnsYes (str "x@MailInator.com")
    (str "MailInator.com") (by decide) (by decide)

/-- Claim C6: `mxOk` is a total boolean function; an input without `@`
yields false, and a failing DNS lookup of the extracted domain yields
false. -/
theorem claim6_mx_never_raises (env : Env) (email : Str) :
    ( '@' ∉ email → mxOk env email = false) ∧
    (∀ d, (splitParts '@' email)[1]? = some d →
      env.resolveMx (lowerStr d) = none → mxOk env email = false) := by
  constructor
  · intro h
    simp [mxOk, splitParts_of_not_mem h]
  · intro d hd hdns
    simp only [mxOk, hd, hdns]
    split
    · rfl
    · split
      · rfl
      · rfl

/-- Counterexample to C7 as stated: a page carrying 50 other distinct
mailto emails before `mailto:Foo@Bar.COM` is fetched successfully, yet
`foo@bar.com` is absent from the output — the 50-entry cap drops it. -/
theorem claim7_mailto_roundtrip_counterexample :
    (∃ a ∈ pageCap.anchors, a.href = some (str "mailto:Foo@Bar.COM")) ∧
    envCap.fetchPage (str "u") = some pageCap ∧
    str "foo@bar.com" ∉ scrapeEmailsFromWebsite envCap (str "u") :=
  ⟨⟨{ href := some (str "mailto:Foo@Bar.COM"), text := [] }, by decide, rfl⟩,
   rfl, by decide⟩

/-- Claim C7, amended: on a successful fetch of a page with an anchor
`mailto:Foo@Bar.COM`, and provided the deduplicated union of discovered
emails has at most 50 entries (so the cap drops nothing), the output
contains `foo@bar.com` exactly once: it is a member of the duplicate-free
output list. -/
theorem claim7_mailto_roundtrip_amended (env : Env) (url : Str) (page : Page)
    (hf : env.fetchPage url = some page)
    (ha : ∃ a ∈ page.anchors, a.href = some (str "mailto:Foo@Bar.COM"))
    (hlen : (uniq (scrapeUnion env url page)).length ≤ 50) :
    str "foo@bar.com" ∈ scrapeEmailsFromWebsite env url ∧
    (scrapeEmailsFromWebsite env url).Nodup := by
  obtain ⟨a, hmem, hhref⟩ := ha
  have h0 : str "mailto:Foo@Bar.COM" ∈ page.anchors.map (fun a => a.href.getD []) :=
    List.mem_map.2 ⟨a, hmem, by rw [hhref]; rfl⟩
  have h1 : str "mailto:Foo@Bar.COM" ∈
      (page.anchors.map (fun a => a.href.getD [])).filter
        (fun h => startsWithL (str "mailto:") h) :=
    List.mem_filter.2 ⟨h0, by decide⟩
  have h2 : str "foo@bar.com" ∈ mailtosOf page.anchors := by
    refine List.mem_filter.2 ⟨?_, by decide⟩
    refine List.mem_map.2 ⟨str "mailto:Foo@Bar.COM", h1, ?_⟩
    decide
  have h3 : str "foo@bar.com" ∈ scrapeUnion env url page := by
    simp only [scrapeUnion, List.mem_append]
    exact Or.inl (Or.inl h2)
  have h4 : str "foo@bar.com" ∈ uniq (scrapeUnion env url page) :=
    mem_uniq_of_mem h3 (by decide)
  rw [scrape_eq_of_fetch hf, List.take_of_length_le hlen]
  exact ⟨h4, uniq_nodup _⟩

/-- Witness for the amended C7 on the one-anchor page `pageWit`. -/
theorem claim7_mailto_roundtrip_amended_witness :
    str "foo@bar.com" ∈ scrapeEmailsFromWebsite envWit (str "https://acme.test") ∧
    (scrapeEmailsFromWebsite envWit (str "https://acme.test")).Nodup :=
  claim7_mailto_roundtrip_amended envWit (str "https://acme.test") pageWit rfl
    ⟨{ href := some (str "mailto:Foo@Bar.COM"), text := str "mail us" },
      by decide, rfl⟩
    (by decide)

theorem flatMap_perLink_eq (env : Env) (base : Str) :
    ∀ l : List Str, l.flatMap (perLink env base) =
      (l.filterMap (fun h => env.resolveUrl h base)).flatMap (pageEmails env) := by
  intro l
  induction l with
  | nil => rfl
  | cons hd tl ih =>
    cases hres : env.resolveUrl hd base with
    | none => simp [perLink, hres, ih]
    | some u => simp [perLink, hres, ih]

/-- Counterexample to C8 as stated: on a page whose only anchor says
"Contact us" in its text but has the href `/x` without any of the three
substrings, the spec's text-or-href selection visits the resolved `/x`
(under either the take-2 or the take-3 reading) while the code visits
nothing: the code never consults anchor text. -/
theorem claim8_secondary_selection_counterexample :
    visitedSecondary envResolveId (str "u") pageTextOnly = [] ∧
    ((specContactLinks pageTextOnly).take 2).filterMap
      (fun h => envResolveId.resolveUrl h (str "u")) = [str "/x"] ∧
    ((specContactLinks pageTextOnly).take 3).filterMap
      (fun h => envResolveId.resolveUrl h (str "u")) = [str "/x"] :=
  ⟨by decide, by decide, by decide⟩

/-- Claim C8, amended: the secondary pages visited are exactly the first
2 entries of the deduplicated list of anchor hrefs containing "contact",
"about" or "support" case-insensitively in the href (anchor text is never
consulted), each resolved against the page URL, skipping hrefs whose
resolution fails; the secondary emails decompose per visited page. -/
theorem claim8_secondary_selection_amended (env : Env) (base : Str) (page : Page) :
    (visitedSecondary env base page).length ≤ 2 ∧
    (contactCandidates page).Nodup ∧
    (∀ h ∈ contactCandidates page,
      hasContactWord h = true ∧ ∃ a ∈ page.anchors, a.href.getD [] = h) ∧
    (∀ u ∈ visitedSecondary env base page,
      ∃ href ∈ (contactCandidates page).take 2, env.resolveUrl href base = some u) ∧
    extraOf env base page = (visitedSecondary env base page).flatMap (pageEmails env) ∧
    (∀ page₂ : Page, page₂.anchors.map Anchor.href = page.anchors.map Anchor.href →
      contactCandidates page₂ = contactCandidates page) := by
  refine ⟨?_, ?_, ?_, ?_, ?_, ?_⟩
  · calc (visitedSecondary env base page).length
        ≤ ((contactCandidates page).take 2).length := List.length_filterMap_le _ _
      _ ≤ 2 := by
        rw [List.length_take]
        exact min_le_left _ _
  · exact List.Nodup.filter _ (nodup_dedupFirstAux _ _)
  · intro h hm
    have h1 := List.mem_filter.1 hm
    refine ⟨h1.2, ?_⟩
    have h2 : h ∈ page.anchors.map (fun a => a.href.getD []) :=
      (uniq_sublist _).subset h1.1
    obtain ⟨a, ha, rfl⟩ := List.mem_map.1 h2
    exact ⟨a, ha, rfl⟩
  · intro u hu
    obtain ⟨href, h1, h2⟩ := List.mem_filterMap.1 hu
    exact ⟨href, h1, h2⟩
  · simp only [extraOf, visitedSecondary]
    rw [foldl_append_eq_flatMap]
    simp only [List.nil_append]
    exact flatMap_perLink_eq env base _
  · intro page₂ hp
    have e : ∀ anchors : List Anchor, anchors.map (fun a => a.href.getD []) =
        (anchors.map Anchor.href).map (fun o => o.getD []) := by
      intro anchors
      rw [List.map_map]
      rfl
    simp only [contactCandidates, e, hp]

/-- Witness for the amended C8 on a page with one `/about` anchor. -/
theorem claim8_secondary_selection_amended_witness :
    (visitedSecondary envResolveId (str "u") pageAbout).length ≤ 2 ∧
    hasContactWord (str "/about") = true ∧
    extraOf envResolveId (str "u") pageAbout =
      (visitedSecondary envResolveId (str "u") pageAbout).flatMap
        (pageEmails envResolveId) := by
  have h := claim8_secondary_selection_amended envResolveId (str "u") pageAbout
  exact ⟨h.1, (h.2.2.1 (str "/about") (by decide)).1, h.2.2.2.2.1⟩

/-- Witness for C6: an input without `@` and an input whose domain's DNS
lookup fails are both rejected. -/
theorem claim6_mx_never_raises_witness :
    mxOk envFail (str "nodomain") = false ∧ mxOk envFail (str "a@b.cc") = false :=
  ⟨(claim6_mx_never_raises envFail (str "nodomain")).1 (by decide),
   (claim6_mx_never_raises envFail (str "a@b.cc")).2 (str "b.cc") (by decide) rfl⟩

/-- Claim C9: the places client fails with an explicit error when the API
key is missing, and on a non-success upstream status it fails with the
upstream response body (its serialization, not a reinterpretation) as the
error payload; in "places" mode such an error propagates to the caller of
`/api/run` as a 500 response carrying the message. -/
theorem claim9_places_errors (env : Env) :
    (∀ q : Str, ∀ n : Nat, env.apiKey = none →
      placesSearchText env q n =
        .error (str "Missing GOOGLE_MAPS_API_KEY in Render env vars.")) ∧
    (∀ q : Str, ∀ n : Nat, ∀ k : Str, env.apiKey = some k →
      (env.placesApi q (clampResults n)).ok = false →
      placesSearchText env q n =
        .error (((env.placesApi q (clampResults n)).json.getD emptyPData).stringified)) ∧
    (∀ req : RunReq, ∀ q : Str, ∀ l : List Str, env.apiKey = none →
      req.items = some (q :: l) → ¬req.mode = str "websites" →
      runHandler env req =
        .error (500, str "Missing GOOGLE_MAPS_API_KEY in Render env vars.")) := by
  refine ⟨?_, ?_, ?_⟩
  · intro q n hk
    simp [placesSearchText, hk]
  · intro q n k hk hok
    simp only [placesSearchText, hk]
    rw [if_neg (by simp [hok])]
  · intro req q l hk hitems hmode
    simp [runHandler, hitems, hmode, List.take_succ_cons, placesLoop,
      placesSearchText, hk]

/-- Witness for C9: a keyless environment rejects a places call with the
missing-key error, an environment with a key but a rejecting upstream
surfaces the upstream body, and `/api/run` returns 500 for a places-mode
request in the keyless environment. -/
theorem claim9_places_errors_witness :
    placesSearchText envFail (str "cafes") 20 =
      .error (str "Missing GOOGLE_MAPS_API_KEY in Render env vars.") ∧
    placesSearchText envBadApi (str "cafes") 20 = .error (str "denied") ∧
    runHandler envFail reqPlaces =
      .error (500, str "Missing GOOGLE_MAPS_API_KEY in Render env vars.") :=
  ⟨(claim9_places_errors envFail).1 (str "cafes") 20 rfl,
   (claim9_places_errors envBadApi).2.1 (str "cafes") 20 (str "k") rfl rfl,
   (claim9_places_errors envFail).2.2 reqPlaces (str "cafes") [] rfl rfl (by decide)⟩

end EmailFinder
